import Mathlib

/-!
Verification of the tree-sitter binding layer of the jasmin-lsp repository
(`src/jasmin-lsp/TreeSitter/tree_sitter_stubs.c`) against its specification.

The binding stubs (`caml_ts_*` functions) are translated directly from the C
source. The underlying tree-sitter engine (`ts_parser_parse_string`,
`ts_node_*`, ...) is not part of the repository; those functions are modelled
from the specification, and each such definition carries a doc comment saying
so.

Modelling conventions:
- OCaml strings / source buffers are `List Nat` (byte sequences).
- A `TSTree *` custom block is a `TreeHandle := Option RawNode`; `none` is the
  NULL pointer stored after the tree has been released.
- A `TSNode` is a coordinate into its tree: the tree value plus a child-index
  path (the spec: "a Node ... is a coordinate into the Tree it was obtained
  from").
- `fprintf(stderr, ...)` diagnostics are modelled, where a claim depends on
  them, as an extra `List String` component of the result (one entry per line,
  `%p` pointer values elided, `%d`/`%u` values rendered with `toString`).
- `caml_failwith` is modelled as the `Except.error` case of an `Except`-valued
  result.
-/

namespace TS

/-- A tree-sitter point: row and column. -/
structure TSPoint where
  row : Nat
  column : Nat
deriving DecidableEq, Repr

/-- A concrete-syntax-tree node value: symbol id, named/missing flags, the
field name of the edge from its parent (if any), byte span, point span, and
children.  Modelled from the spec data model for Node/Tree. -/
inductive RawNode where
  | node (symbol : Nat) (isNamed : Bool) (isMissing : Bool)
      (fieldName : Option String) (startByte endByte : Nat)
      (startPoint endPoint : TSPoint) (children : List RawNode) : RawNode

def RawNode.symbolOf : RawNode → Nat
  | .node s _ _ _ _ _ _ _ _ => s

def RawNode.isNamedOf : RawNode → Bool
  | .node _ b _ _ _ _ _ _ _ => b

def RawNode.isMissingOf : RawNode → Bool
  | .node _ _ m _ _ _ _ _ _ => m

def RawNode.fieldNameOf : RawNode → Option String
  | .node _ _ _ f _ _ _ _ _ => f

def RawNode.startByteOf : RawNode → Nat
  | .node _ _ _ _ a _ _ _ _ => a

def RawNode.endByteOf : RawNode → Nat
  | .node _ _ _ _ _ b _ _ _ => b

def RawNode.startPointOf : RawNode → TSPoint
  | .node _ _ _ _ _ _ p _ _ => p

def RawNode.endPointOf : RawNode → TSPoint
  | .node _ _ _ _ _ _ _ q _ => q

def RawNode.childrenOf : RawNode → List RawNode
  | .node _ _ _ _ _ _ _ _ cs => cs

/-- Modelled from the spec: the reserved symbol id of the synthetic ERROR
node (`ts_builtin_sym_error`, i.e. `(TSSymbol)-1 = 65535`). -/
def errorSymbol : Nat := 65535

/-- Symbol id used by the modelled engine for the root of a well-formed
parse. -/
def sourceFileSymbol : Nat := 1

/-- Modelled from the spec: the Language symbol table maps symbol ids to type
name strings; the reserved error symbol's name is `"ERROR"` and no grammar
symbol shares that name. -/
def symbolName (s : Nat) : String :=
  if s = errorSymbol then "ERROR" else "sym" ++ toString s

/-- Resolve a child-index path inside a tree to the node it denotes. -/
def nodeAt : RawNode → List Nat → Option RawNode
  | n, [] => some n
  | n, i :: p =>
    match n.childrenOf.get? i with
    | some c => nodeAt c p
    | none => none

/-- A `TSNode` as marshalled by the stubs: a coordinate (tree plus path) into
an immutable tree. -/
structure TSNode where
  tree : RawNode
  path : List Nat

/-- Modelled from the spec: a compiled Language artifact — ABI version tag
plus its (lexical) symbol table, here a classification of input bytes into
terminal symbols. -/
structure Language where
  abiVersion : Nat
  tokenSym : Nat → Option Nat

/-- The parser state held behind the `TSParser *` custom block: the language
configured on it, if any. -/
structure TSParser where
  language : Option Language

/-- A `TSTree *` slot of the OCaml custom block; `none` is the NULL pointer
written by `caml_ts_tree_delete` / `tree_finalize`. -/
abbrev TreeHandle : Type := Option RawNode

/-- Modelled from the spec: the engine's expected Language ABI version
(`TREE_SITTER_LANGUAGE_VERSION`). -/
def TREE_SITTER_LANGUAGE_VERSION : Nat := 15

/-- The point (row, column) of byte offset `k` of source `s`
(newline = byte 10). -/
def pointAt (s : List Nat) (k : Nat) : TSPoint :=
  ⟨(s.take k).count 10, ((s.take k).reverse.takeWhile (fun b => b ≠ 10)).length⟩

/-- Terminal classification of one byte of input: a recognised byte becomes a
named token with its table symbol, anything else becomes an ERROR token. -/
def leafSymbol (l : Language) (ob : Option Nat) : Nat × Bool :=
  match ob with
  | none => (errorSymbol, false)
  | some b =>
    match l.tokenSym b with
    | some sym => (sym, true)
    | none => (errorSymbol, false)

/-- The leaf node produced for byte `i` of source `s`: it always spans
`[i, i+1)`. -/
def lexLeaf (l : Language) (s : List Nat) (i : Nat) : RawNode :=
  .node (leafSymbol l (s.get? i)).1 (leafSymbol l (s.get? i)).2 false none
    i (i + 1) (pointAt s i) (pointAt s (i + 1)) []

/-- The token sequence of a source buffer: one leaf per byte, in order. -/
def lexAll (l : Language) (s : List Nat) : List RawNode :=
  (List.range s.length).map (fun i => lexLeaf l s i)

/-- Modelled from the spec: the engine's `parse` operation
(`parse(source, language, previous_tree) -> Tree`).  It is total: every byte
sequence yields a tree whose root spans `[0, len s)`; input none of whose
bytes is recognised degenerates to a tree whose root is a single ERROR node
spanning all bytes; recognised bytes become named token leaves and
unrecognised bytes become ERROR leaves under a source-file root.  Re-use of a
previous tree affects cost only, never the resulting tree value, so the model
takes no previous-tree argument. -/
def parse (l : Language) (s : List Nat) : RawNode :=
  if s ≠ [] ∧ ∀ b ∈ s, l.tokenSym b = none then
    .node errorSymbol false false none 0 s.length (pointAt s 0)
      (pointAt s s.length) (lexAll l s)
  else
    .node sourceFileSymbol true false none 0 s.length (pointAt s 0)
      (pointAt s s.length) (lexAll l s)

/-- Modelled from the spec: `ts_parser_parse_string` — returns NULL (here
`none`) only when the parser has no language configured; otherwise it always
produces a tree. -/
def ts_parser_parse_string (p : TSParser) (old : Option RawNode)
    (s : List Nat) : Option RawNode :=
  match p.language with
  | none => none
  | some l =>
    match old with
    | _ => some (parse l s)

/-- Modelled from the spec: `ts_parser_set_language` checks the artifact's
ABI version against the engine's expected version; on mismatch it refuses,
returning `false` and leaving the parser's configuration unchanged. -/
def ts_parser_set_language (p : TSParser) (l : Language) : TSParser × Bool :=
  if l.abiVersion = TREE_SITTER_LANGUAGE_VERSION then
    (⟨some l⟩, true)
  else
    (p, false)

/-- Modelled from the spec: `ts_tree_root_node` returns the root coordinate
of a tree. -/
def ts_tree_root_node (t : RawNode) : TSNode := ⟨t, []⟩

/-- Modelled from the spec: `ts_node_is_null` — whether a node coordinate
denotes no node of its tree. -/
def ts_node_is_null (nd : TSNode) : Bool := (nodeAt nd.tree nd.path).isNone

/-- Modelled from the spec: `ts_node_type` — the type name string of the
node's symbol (unspecified for the null node; the model returns `""`). -/
def ts_node_type (nd : TSNode) : String :=
  match nodeAt nd.tree nd.path with
  | some n => symbolName n.symbolOf
  | none => ""

/-- Modelled from the spec: `ts_node_start_byte` (0 for the null node). -/
def ts_node_start_byte (nd : TSNode) : Nat :=
  match nodeAt nd.tree nd.path with
  | some n => n.startByteOf
  | none => 0

/-- Modelled from the spec: `ts_node_end_byte` (0 for the null node). -/
def ts_node_end_byte (nd : TSNode) : Nat :=
  match nodeAt nd.tree nd.path with
  | some n => n.endByteOf
  | none => 0

/-- Modelled from the spec: `ts_node_child_count`. -/
def ts_node_child_count (nd : TSNode) : Nat :=
  match nodeAt nd.tree nd.path with
  | some n => n.childrenOf.length
  | none => 0

/-- Whether any node of this subtree is an ERROR or missing node — the
`has_error` flag of the spec, propagated to every ancestor of an error
region.  Modelled from the spec. -/
def RawNode.hasErrorB : RawNode → Bool
  | .node s _ m _ _ _ _ _ cs =>
    decide (s = errorSymbol) || m || cs.attach.any (fun c => c.1.hasErrorB)
termination_by n => sizeOf n
decreasing_by
  simp_wf
  have h := List.sizeOf_lt_of_mem c.2
  omega

/-- The ascending list of absolute indices (starting from `k`) of the named
elements of a child list. -/
def namedIdxList : List RawNode → Nat → List Nat
  | [], _ => []
  | c :: cs, k =>
    if c.isNamedOf then k :: namedIdxList cs (k + 1) else namedIdxList cs (k + 1)

/-- The absolute index (starting from `k`) of the first child carrying field
name `f`, if any. -/
def fieldIdx (f : String) : List RawNode → Nat → Option Nat
  | [], _ => none
  | c :: cs, k =>
    if c.fieldNameOf = some f then some k else fieldIdx f cs (k + 1)

/-- Boolean point order: `a` is at or before `b`. -/
def pointLeb (a b : TSPoint) : Bool :=
  decide (a.row < b.row) || (decide (a.row = b.row) && decide (a.column ≤ b.column))

/-- Whether the point range `[s, e]` lies inside node `n`'s point span. -/
def containsB (n : RawNode) (s e : TSPoint) : Bool :=
  pointLeb n.startPointOf s && pointLeb e n.endPointOf

/-- The first child (with its absolute index, starting from `k`) whose point
span contains the range `[s, e]`, if any. -/
def findContaining (s e : TSPoint) : List RawNode → Nat → Option (Nat × RawNode)
  | [], _ => none
  | c :: cs, k =>
    if containsB c s e then some (k, c) else findContaining s e cs (k + 1)

theorem findContaining_mem {s e : TSPoint} :
    ∀ (cs : List RawNode) (k : Nat) (p : Nat × RawNode),
      findContaining s e cs k = some p → p.2 ∈ cs := by
  intro cs
  induction cs with
  | nil => intro k p h; simp [findContaining] at h
  | cons c cs ih =>
    intro k p h
    simp only [findContaining] at h
    by_cases hc : containsB c s e
    · rw [if_pos hc] at h
      cases h
      exact List.mem_cons_self _ _
    · rw [if_neg hc] at h
      exact List.mem_cons_of_mem _ (ih (k + 1) p h)

theorem sizeOf_childrenOf_lt (n : RawNode) : sizeOf n.childrenOf < sizeOf n := by
  cases n with
  | node s b m f a e p q cs => simp [RawNode.childrenOf]

/-- Descend from the node `n` at path `p` of tree `t` to the deepest
left-most descendant whose point span contains `[s, e]`.  Modelled from the
spec ("finds the smallest node fully containing the given point range — ties
broken by preferring the deepest, left-most such node"). -/
def descend (t : RawNode) (p : List Nat) (n : RawNode) (s e : TSPoint) : TSNode :=
  match h : findContaining s e n.childrenOf 0 with
  | some jc => descend t (p ++ [jc.1]) jc.2 s e
  | none => ⟨t, p⟩
termination_by sizeOf n
decreasing_by
  simp_wf
  have h1 := List.sizeOf_lt_of_mem (findContaining_mem _ _ _ h)
  have h2 := sizeOf_childrenOf_lt n
  omega

/-- Modelled from the spec: `ts_node_parent` — null (here `none`) exactly for
the root coordinate. -/
def ts_node_parent (nd : TSNode) : Option TSNode :=
  if nd.path.isEmpty then none else some ⟨nd.tree, nd.path.dropLast⟩

/-- Modelled from the spec: `ts_node_child` — the `i`-th child, null when
`i` is not below the child count. -/
def ts_node_child (nd : TSNode) (i : Nat) : Option TSNode :=
  match nodeAt nd.tree nd.path with
  | none => none
  | some n =>
    if i < n.childrenOf.length then some ⟨nd.tree, nd.path ++ [i]⟩ else none

/-- Modelled from the spec: `ts_node_named_child_count`. -/
def ts_node_named_child_count (nd : TSNode) : Nat :=
  match nodeAt nd.tree nd.path with
  | some n => n.childrenOf.countP (fun c => c.isNamedOf)
  | none => 0

/-- Modelled from the spec: `ts_node_named_child` — the `i`-th named child,
null when there are at most `i` named children. -/
def ts_node_named_child (nd : TSNode) (i : Nat) : Option TSNode :=
  match nodeAt nd.tree nd.path with
  | none => none
  | some n =>
    match (namedIdxList n.childrenOf 0).get? i with
    | some j => some ⟨nd.tree, nd.path ++ [j]⟩
    | none => none

/-- Modelled from the spec: `ts_node_child_by_field_name` — the first child
whose edge carries the given field name, null when there is none. -/
def ts_node_child_by_field_name (nd : TSNode) (f : String) : Option TSNode :=
  match nodeAt nd.tree nd.path with
  | none => none
  | some n =>
    match fieldIdx f n.childrenOf 0 with
    | some j => some ⟨nd.tree, nd.path ++ [j]⟩
    | none => none

/-- Modelled from the spec: `ts_node_next_sibling` — null for the root and
for a last child. -/
def ts_node_next_sibling (nd : TSNode) : Option TSNode :=
  match nd.path.getLast? with
  | none => none
  | some i =>
    match nodeAt nd.tree nd.path.dropLast with
    | none => none
    | some m =>
      if i + 1 < m.childrenOf.length then
        some ⟨nd.tree, nd.path.dropLast ++ [i + 1]⟩
      else none

/-- Modelled from the spec: `ts_node_prev_sibling` — null for the root and
for a first child. -/
def ts_node_prev_sibling (nd : TSNode) : Option TSNode :=
  match nd.path.getLast? with
  | none => none
  | some i =>
    match nodeAt nd.tree nd.path.dropLast with
    | none => none
    | some _ =>
      if i = 0 then none else some ⟨nd.tree, nd.path.dropLast ++ [i - 1]⟩

/-- Modelled from the spec: `ts_node_next_named_sibling` — the first named
sibling after this node, null when no later sibling is named. -/
def ts_node_next_named_sibling (nd : TSNode) : Option TSNode :=
  match nd.path.getLast? with
  | none => none
  | some i =>
    match nodeAt nd.tree nd.path.dropLast with
    | none => none
    | some m =>
      match namedIdxList (m.childrenOf.drop (i + 1)) (i + 1) with
      | j :: _ => some ⟨nd.tree, nd.path.dropLast ++ [j]⟩
      | [] => none

/-- Modelled from the spec: `ts_node_prev_named_sibling` — the last named
sibling before this node, null when no earlier sibling is named. -/
def ts_node_prev_named_sibling (nd : TSNode) : Option TSNode :=
  match nd.path.getLast? with
  | none => none
  | some i =>
    match nodeAt nd.tree nd.path.dropLast with
    | none => none
    | some m =>
      match (namedIdxList (m.childrenOf.take i) 0).getLast? with
      | some j => some ⟨nd.tree, nd.path.dropLast ++ [j]⟩
      | none => none

/-- Modelled from the spec: `ts_node_descendant_for_point_range` — the
smallest (deepest, left-most) node fully containing the point range, null
when the range is not contained in this node. -/
def ts_node_descendant_for_point_range (nd : TSNode) (s e : TSPoint) :
    Option TSNode :=
  match nodeAt nd.tree nd.path with
  | none => none
  | some n =>
    if containsB n s e then some (descend nd.tree nd.path n s e) else none

/-- Modelled from the spec: `ts_node_has_error` on a valid node. -/
def ts_node_has_error (nd : TSNode) : Bool :=
  match nodeAt nd.tree nd.path with
  | some n => n.hasErrorB
  | none => false

/-! ### The binding stubs, translated from
`src/jasmin-lsp/TreeSitter/tree_sitter_stubs.c`. -/

/-- `caml_ts_parser_set_language` (stubs lines 175–188): logs the versions,
calls `ts_parser_set_language`, logs its boolean result, logs an extra line
on failure, and returns `Val_unit` unconditionally — the `Except` channel
(the OCaml exception channel) is never used.  Result: (new parser state,
returned value, stderr lines). -/
def caml_ts_parser_set_language (p : TSParser) (l : Language) :
    TSParser × Except String Unit × List String :=
  let r := ts_parser_set_language p l
  (r.1, Except.ok (),
    ["[C DEBUG] Setting language on parser",
     "[C DEBUG] Language ABI version: " ++ toString l.abiVersion,
     "[C DEBUG] Expected ABI version: " ++ toString TREE_SITTER_LANGUAGE_VERSION,
     "[C DEBUG] Set language result: " ++ (if r.2 then "1" else "0")]
    ++ (if r.2 then [] else
        ["[C DEBUG] ERROR: Failed to set language! ABI version mismatch?"]))

/-- `caml_ts_parser_parse_string` (stubs lines 198–214): calls the engine
with no previous tree; `Val_none` when the engine returns NULL, otherwise
`Some` of a fresh tree block.  This stub writes no diagnostics. -/
def caml_ts_parser_parse_string (p : TSParser) (s : List Nat) :
    Option TreeHandle :=
  match ts_parser_parse_string p none s with
  | none => none
  | some t => some (some t)

/-- `caml_ts_parser_parse_string_with_tree` (stubs lines 216–242): logs the
byte count unconditionally, unwraps the optional previous tree block (logging
when one is present), calls the engine, logs the outcome, and wraps the
result.  Result: (returned value, the previous-tree argument after the call,
stderr lines). -/
def caml_ts_parser_parse_string_with_tree (p : TSParser)
    (v_old : Option TreeHandle) (s : List Nat) :
    Option TreeHandle × Option TreeHandle × List String :=
  let log1 := ["[C DEBUG] Parsing " ++ toString s.length ++ " bytes"]
  let log2 := match v_old with
    | some _ => ["[C DEBUG] Using old tree"]
    | none => []
  let old_tree : Option RawNode := match v_old with
    | some h => h
    | none => none
  match ts_parser_parse_string p old_tree s with
  | none => (none, v_old, log1 ++ log2 ++ ["[C DEBUG] Parser returned NULL!"])
  | some t =>
    (some (some t), v_old,
      log1 ++ log2 ++ ["[C DEBUG] Parser succeeded, creating OCaml value"])

/-- `caml_ts_tree_root_node` (stubs lines 244–254): checks the stored tree
pointer for NULL; on a released tree it logs and raises
`Failure "tree_root_node: NULL tree"` (`caml_failwith`); otherwise it returns
the root node.  Result: (returned value or exception, stderr lines). -/
def caml_ts_tree_root_node (v_tree : TreeHandle) :
    Except String TSNode × List String :=
  match v_tree with
  | none =>
    (Except.error "tree_root_node: NULL tree",
     ["[C DEBUG] ERROR: tree_root_node called on NULL tree!"])
  | some t => (Except.ok (ts_tree_root_node t), [])

/-- `caml_ts_tree_delete` (stubs lines 256–266): checks the stored tree
pointer for NULL, so deleting an already-released tree is a no-op; otherwise
it logs, deletes, and NULLs the slot.  Returns `Val_unit` in both cases.
Result: (slot after the call, stderr lines). -/
def caml_ts_tree_delete (v_tree : TreeHandle) : TreeHandle × List String :=
  match v_tree with
  | none => ((none : Option RawNode), [])
  | some _ => ((none : Option RawNode), ["[C DEBUG] Manually deleting tree"])

/-- `caml_ts_node_start_byte` (stubs lines 357–361). -/
def caml_ts_node_start_byte (nd : TSNode) : Nat := ts_node_start_byte nd

/-- `caml_ts_node_end_byte` (stubs lines 363–367). -/
def caml_ts_node_end_byte (nd : TSNode) : Nat := ts_node_end_byte nd

/-- `caml_ts_node_child_count` (stubs lines 369–373). -/
def caml_ts_node_child_count (nd : TSNode) : Nat := ts_node_child_count nd

/-- `caml_ts_node_named_child_count` (stubs lines 388–392). -/
def caml_ts_node_named_child_count (nd : TSNode) : Nat :=
  ts_node_named_child_count nd

/-- `caml_ts_node_child` (stubs lines 375–386): `Val_none` exactly when the
engine returns the null node, otherwise `Val_some` of the child. -/
def caml_ts_node_child (nd : TSNode) (i : Nat) : Option TSNode :=
  match ts_node_child nd i with
  | none => none
  | some c => some c

/-- `caml_ts_node_named_child` (stubs lines 394–405). -/
def caml_ts_node_named_child (nd : TSNode) (i : Nat) : Option TSNode :=
  match ts_node_named_child nd i with
  | none => none
  | some c => some c

/-- `caml_ts_node_child_by_field_name` (stubs lines 407–419). -/
def caml_ts_node_child_by_field_name (nd : TSNode) (f : String) :
    Option TSNode :=
  match ts_node_child_by_field_name nd f with
  | none => none
  | some c => some c

/-- `caml_ts_node_parent` (stubs lines 421–431). -/
def caml_ts_node_parent (nd : TSNode) : Option TSNode :=
  match ts_node_parent nd with
  | none => none
  | some c => some c

/-- `caml_ts_node_next_sibling` (stubs lines 433–443). -/
def caml_ts_node_next_sibling (nd : TSNode) : Option TSNode :=
  match ts_node_next_sibling nd with
  | none => none
  | some c => some c

/-- `caml_ts_node_prev_sibling` (stubs lines 445–455). -/
def caml_ts_node_prev_sibling (nd : TSNode) : Option TSNode :=
  match ts_node_prev_sibling nd with
  | none => none
  | some c => some c

/-- `caml_ts_node_next_named_sibling` (stubs lines 457–467). -/
def caml_ts_node_next_named_sibling (nd : TSNode) : Option TSNode :=
  match ts_node_next_named_sibling nd with
  | none => none
  | some c => some c

/-- `caml_ts_node_prev_named_sibling` (stubs lines 469–479). -/
def caml_ts_node_prev_named_sibling (nd : TSNode) : Option TSNode :=
  match ts_node_prev_named_sibling nd with
  | none => none
  | some c => some c

/-- `caml_ts_node_descendant_for_point_range` (stubs lines 498–511). -/
def caml_ts_node_descendant_for_point_range (nd : TSNode) (s e : TSPoint) :
    Option TSNode :=
  match ts_node_descendant_for_point_range nd s e with
  | none => none
  | some c => some c

/-- `caml_ts_node_text` (stubs lines 481–496): reads the node's byte span,
computes `length = end - start` in `uint32` arithmetic, and copies `length`
bytes of the source starting at `start` with no bounds check against the
source length; the model returns `none` exactly when that copy would read
out of bounds (undefined behaviour in the C). -/
def caml_ts_node_text (nd : TSNode) (s : List Nat) : Option (List Nat) :=
  let start := ts_node_start_byte nd
  let stop := ts_node_end_byte nd
  let length := (4294967296 + stop - start) % 4294967296
  if start + length ≤ s.length then some ((s.drop start).take length)
  else none

/-- `caml_ts_node_is_error` (stubs lines 528–533): compares the node's type
string against `"ERROR"` (`strcmp(type, "ERROR") == 0`). -/
def caml_ts_node_is_error (nd : TSNode) : Bool :=
  ts_node_type nd == "ERROR"

/-- `caml_ts_node_has_error` (stubs lines 313–331): `false` for the null
node, otherwise `ts_node_has_error` (its unconditional debug logging is not
modelled; no claim depends on it). -/
def caml_ts_node_has_error (nd : TSNode) : Bool :=
  if ts_node_is_null nd then false else ts_node_has_error nd

/-! ### Concrete instances used by witnesses and counterexamples. -/

/-- A small concrete Language with the expected ABI version: lower-case ASCII
letters are tokens, everything else is unrecognised. -/
def jasminLang : Language :=
  ⟨TREE_SITTER_LANGUAGE_VERSION,
   fun b => if 97 ≤ b ∧ b ≤ 122 then some 2 else none⟩

/-- A Language whose ABI version does not match the engine's. -/
def mismatchedLang : Language :=
  ⟨TREE_SITTER_LANGUAGE_VERSION + 1, fun _ => none⟩

/-- A parser configured with `jasminLang`. -/
def p1 : TSParser := ⟨some jasminLang⟩

/-- An unconfigured parser. -/
def p0 : TSParser := ⟨none⟩

/-- A concrete two-leaf tree: a named non-error parent over a named leaf and
an ERROR leaf. -/
def sampleTree : RawNode :=
  .node sourceFileSymbol true false none 0 2 ⟨0, 0⟩ ⟨0, 2⟩
    [.node 2 true false none 0 1 ⟨0, 0⟩ ⟨0, 1⟩ [],
     .node errorSymbol false false none 1 2 ⟨0, 1⟩ ⟨0, 2⟩ []]

/-! ### Theorems. -/

/-- Claim C2, counterexample: installing a Language whose ABI version does
not match the engine's expected version does NOT fail with an explicit
VersionMismatch error — `caml_ts_parser_set_language` returns `Val_unit`
(`Except.ok ()`) for the mismatched `mismatchedLang` exactly as it would for
a matching one, only logging the failure to stderr. -/
theorem C2_set_language_no_error :
    mismatchedLang.abiVersion ≠ TREE_SITTER_LANGUAGE_VERSION ∧
      (caml_ts_parser_set_language p0 mismatchedLang).2.1 = Except.ok () := by
  constructor
  · decide
  · rfl

/-- Claim C2 as amended: when a Language artifact's ABI version does not
match the engine's expected version, the language is not installed — the
parser's configuration is left unchanged, so no parser is ever left
configured with a mismatched language — but the binding surfaces no explicit
VersionMismatch error: `caml_ts_parser_set_language` returns `Val_unit`
(`Except.ok ()`) regardless, recording the failure only as a stderr
diagnostic line. -/
theorem C2_set_language_mismatch (p : TSParser) (l : Language)
    (h : l.abiVersion ≠ TREE_SITTER_LANGUAGE_VERSION) :
    (caml_ts_parser_set_language p l).1 = p ∧
      (caml_ts_parser_set_language p l).2.1 = Except.ok () ∧
      "[C DEBUG] ERROR: Failed to set language! ABI version mismatch?" ∈
        (caml_ts_parser_set_language p l).2.2 := by
  unfold caml_ts_parser_set_language ts_parser_set_language
  rw [if_neg h]
  simp

/-- Witness for `C2_set_language_mismatch` at the concrete mismatched
language. -/
theorem C2_set_language_mismatch_witness :
    (caml_ts_parser_set_language p0 mismatchedLang).1 = p0 ∧
      (caml_ts_parser_set_language p0 mismatchedLang).2.1 = Except.ok () ∧
      "[C DEBUG] ERROR: Failed to set language! ABI version mismatch?" ∈
        (caml_ts_parser_set_language p0 mismatchedLang).2.2 :=
  C2_set_language_mismatch p0 mismatchedLang (by decide)

/-- Claim C3, counterexample: calling a tree operation after the Tree has
been released IS detected and reported at runtime — after
`caml_ts_tree_delete`, `caml_ts_tree_root_node` raises
`Failure "tree_root_node: NULL tree"` via `caml_failwith` instead of
proceeding unchecked. -/
theorem C3_use_after_release_checked :
    (caml_ts_tree_root_node (caml_ts_tree_delete (some sampleTree)).1).1 =
      Except.error "tree_root_node: NULL tree" := rfl

/-- Claim C3 as amended: calling a tree operation after the Tree has been
released is runtime-checked by the binding, not merely documented: the
released slot is NULLed, `caml_ts_tree_root_node` detects the NULL tree and
raises an explicit failure, and `caml_ts_tree_delete` on a released tree is
a checked no-op; on a live tree both operations behave normally. -/
theorem C3_release_guards :
    (caml_ts_tree_root_node none).1 = Except.error "tree_root_node: NULL tree" ∧
      caml_ts_tree_delete none = (none, []) ∧
      (∀ t : RawNode,
        (caml_ts_tree_delete (some t)).1 = none ∧
          (caml_ts_tree_root_node (some t)).1 = Except.ok ⟨t, []⟩) := by
  refine ⟨rfl, rfl, fun t => ⟨rfl, rfl⟩⟩

/-- Claim C4, counterexample: a parse call is NOT free of observable output
beyond the new Tree — `caml_ts_parser_parse_string_with_tree` writes
diagnostic lines to stderr unconditionally, already on the empty input with
no previous tree. -/
theorem C4_parse_logs_unconditionally :
    (caml_ts_parser_parse_string_with_tree p1 none []).2.2 ≠ [] := by
  decide

/-- Claim C4 as amended: a call to
`caml_ts_parser_parse_string_with_tree` leaves the `previous_tree` argument
unchanged, but it is not otherwise effect-free: on every call — whatever the
parser state, previous tree, or input — it unconditionally writes the
diagnostic line `[C DEBUG] Parsing N bytes` (and more) to stderr. -/
theorem C4_parse_frame (p : TSParser) (v_old : Option TreeHandle)
    (s : List Nat) :
    (caml_ts_parser_parse_string_with_tree p v_old s).2.1 = v_old ∧
      ("[C DEBUG] Parsing " ++ toString s.length ++ " bytes") ∈
        (caml_ts_parser_parse_string_with_tree p v_old s).2.2 := by
  unfold caml_ts_parser_parse_string_with_tree
  cases v_old <;>
    cases h : ts_parser_parse_string p none s <;>
      simp [h] <;>
        cases h2 : ts_parser_parse_string p _ s <;> simp [h2]

theorem parse_startByteOf (l : Language) (s : List Nat) :
    (parse l s).startByteOf = 0 := by
  unfold parse; split <;> rfl

theorem parse_endByteOf (l : Language) (s : List Nat) :
    (parse l s).endByteOf = s.length := by
  unfold parse; split <;> rfl

theorem parse_childrenOf (l : Language) (s : List Nat) :
    (parse l s).childrenOf = lexAll l s := by
  unfold parse; split <;> rfl

/-- Claim C1: for every input byte sequence (with a language configured, as
the spec's `parse(source, language, previous_tree)` presupposes), the parse
stub terminates and returns `Some` of a Tree — never `None`, never an
exception — and input none of whose bytes the language recognises
degenerates to a tree whose root is an ERROR node. -/
theorem C1_parse_total (p : TSParser) (l : Language) (s : List Nat)
    (hp : p.language = some l) :
    caml_ts_parser_parse_string p s = some (some (parse l s)) ∧
      (caml_ts_tree_root_node (some (parse l s))).1 =
        Except.ok ⟨parse l s, []⟩ ∧
      ((s ≠ [] ∧ ∀ b ∈ s, l.tokenSym b = none) →
        caml_ts_node_is_error ⟨parse l s, []⟩ = true) := by
  refine ⟨?_, rfl, ?_⟩
  · unfold caml_ts_parser_parse_string ts_parser_parse_string
    rw [hp]
  · intro h
    unfold caml_ts_node_is_error ts_node_type
    show (symbolName (parse l s).symbolOf == "ERROR") = true
    unfold parse
    rw [if_pos h]
    show (symbolName errorSymbol == "ERROR") = true
    decide

/-- Witness for `C1_parse_total`: the configured parser `p1` on the fully
unrecognised one-byte input `[33]`. -/
theorem C1_parse_total_witness :
    caml_ts_parser_parse_string p1 [33] = some (some (parse jasminLang [33])) ∧
      caml_ts_node_is_error ⟨parse jasminLang [33], []⟩ = true :=
  ⟨(C1_parse_total p1 jasminLang [33] rfl).1,
   (C1_parse_total p1 jasminLang [33] rfl).2.2 ⟨by decide, by decide⟩⟩

/-- Claim C6: for every source byte sequence (including the empty one), the
root node of the tree returned by parse has `start_byte = 0` and
`end_byte = len s`. -/
theorem C6_root_span (l : Language) (s : List Nat) :
    (caml_ts_tree_root_node (some (parse l s))).1 = Except.ok ⟨parse l s, []⟩ ∧
      caml_ts_node_start_byte ⟨parse l s, []⟩ = 0 ∧
      caml_ts_node_end_byte ⟨parse l s, []⟩ = s.length := by
  refine ⟨rfl, ?_, ?_⟩
  · unfold caml_ts_node_start_byte ts_node_start_byte
    show (parse l s).startByteOf = 0
    exact parse_startByteOf l s
  · unfold caml_ts_node_end_byte ts_node_end_byte
    show (parse l s).endByteOf = s.length
    exact parse_endByteOf l s

theorem lexLeaf_startByteOf (l : Language) (s : List Nat) (i : Nat) :
    (lexLeaf l s i).startByteOf = i := rfl

theorem lexLeaf_endByteOf (l : Language) (s : List Nat) (i : Nat) :
    (lexLeaf l s i).endByteOf = i + 1 := rfl

theorem lexLeaf_childrenOf (l : Language) (s : List Nat) (i : Nat) :
    (lexLeaf l s i).childrenOf = [] := rfl

theorem lexAll_get? (l : Language) (s : List Nat) (i : Nat) :
    (lexAll l s).get? i =
      if i < s.length then some (lexLeaf l s i) else none := by
  unfold lexAll
  rw [List.get?_map]
  by_cases h : i < s.length
  · rw [if_pos h, List.get?_range h]
    rfl
  · rw [if_neg h, List.get?_len_le]
    · rfl
    · simpa using Nat.le_of_not_lt h

theorem mem_lexAll_endByteOf (l : Language) (s : List Nat) (c : RawNode)
    (hc : c ∈ lexAll l s) : c.endByteOf ≤ s.length := by
  unfold lexAll at hc
  rcases List.mem_map.mp hc with ⟨i, hi, hci⟩
  rw [← hci, lexLeaf_endByteOf]
  exact List.mem_range.mp hi

/-- Every node of a parsed tree is either the root or a leaf produced for one
byte of the input. -/
theorem parse_nodeAt (l : Language) (s : List Nat) :
    ∀ (path : List Nat) (n : RawNode), nodeAt (parse l s) path = some n →
      (path = [] ∧ n = parse l s) ∨
        (∃ i, i < s.length ∧ path = [i] ∧ n = lexLeaf l s i) := by
  intro path n hv
  cases path with
  | nil =>
    left
    refine ⟨rfl, ?_⟩
    have : some (parse l s) = some n := hv
    exact (Option.some.injEq _ _ ▸ this).symm
  | cons i rest =>
    right
    have hstep : nodeAt (parse l s) (i :: rest) =
        match (parse l s).childrenOf.get? i with
        | some c => nodeAt c rest
        | none => none := rfl
    rw [hstep, parse_childrenOf, lexAll_get?] at hv
    by_cases hi : i < s.length
    · rw [if_pos hi] at hv
      cases rest with
      | nil =>
        have : some (lexLeaf l s i) = some n := hv
        exact ⟨i, hi, rfl, (Option.some.injEq _ _ ▸ this).symm⟩
      | cons j rest2 =>
        have hleaf : nodeAt (lexLeaf l s i) (j :: rest2) = none := rfl
        have hv2 : nodeAt (lexLeaf l s i) (j :: rest2) = some n := hv
        rw [hleaf] at hv2
        exact absurd hv2 (by simp)
    · rw [if_neg hi] at hv
      exact absurd hv (by simp)

theorem lexAll_chain (l : Language) (s : List Nat) :
    List.Chain' (fun a b => a.endByteOf ≤ b.startByteOf) (lexAll l s) := by
  unfold lexAll
  rw [List.chain'_map]
  cases hn : s.length with
  | zero => simp
  | succ m =>
    rw [List.chain'_range_succ]
    intro k _
    rw [lexLeaf_endByteOf, lexLeaf_startByteOf]

/-- Claim C7: in every tree produced by parse, every node's children have
byte-spans that start no earlier than the parent's start, end no later than
the parent's end, and are ordered and non-overlapping
(`ci.end_byte <= c(i+1).start_byte`). -/
theorem C7_child_spans (l : Language) (s : List Nat) (path : List Nat)
    (n : RawNode) (hv : nodeAt (parse l s) path = some n) :
    (∀ c0, n.childrenOf.head? = some c0 → n.startByteOf ≤ c0.startByteOf) ∧
      (∀ ck, n.childrenOf.getLast? = some ck → ck.endByteOf ≤ n.endByteOf) ∧
      List.Chain' (fun a b => a.endByteOf ≤ b.startByteOf) n.childrenOf := by
  rcases parse_nodeAt l s path n hv with ⟨_, hn⟩ | ⟨i, _, _, hn⟩
  · subst hn
    refine ⟨?_, ?_, ?_⟩
    · intro c0 _
      rw [parse_startByteOf]
      exact Nat.zero_le _
    · intro ck hck
      rw [parse_endByteOf]
      refine mem_lexAll_endByteOf l s ck ?_
      rw [parse_childrenOf] at hck
      have hm : ck ∈ (lexAll l s).getLast? := by
        rw [hck]; exact Option.mem_some_self ck
      rcases List.mem_getLast?_eq_getLast hm with ⟨hne, heq⟩
      rw [heq]
      exact List.getLast_mem hne
    · rw [parse_childrenOf]
      exact lexAll_chain l s
  · subst hn
    rw [lexLeaf_childrenOf]
    exact ⟨fun c0 h => by simp at h, fun ck h => by simp at h, List.chain'_nil⟩

/-- Witness for `C7_child_spans` at the root of a concrete parse. -/
theorem C7_child_spans_witness :
    List.Chain' (fun a b => a.endByteOf ≤ b.startByteOf)
      ((parse jasminLang [97, 33]).childrenOf) :=
  (C7_child_spans jasminLang [97, 33] [] (parse jasminLang [97, 33]) rfl).2.2

/-- Claim C8: parsing the same bytes twice with no previous tree yields two
trees of identical shape — corresponding nodes (same path) have equal symbol
ids and equal byte/point spans.  In the model the parser's scratch state does
not influence the result, so successive calls coincide; the spec's
determinism is exactly this. -/
theorem C8_reparse_same_shape (p : TSParser) (l : Language) (s : List Nat)
    (hp : p.language = some l) :
    ∃ t1 t2 : RawNode,
      caml_ts_parser_parse_string p s = some (some t1) ∧
        caml_ts_parser_parse_string p s = some (some t2) ∧
        ∀ path : List Nat,
          (nodeAt t1 path).map RawNode.symbolOf =
              (nodeAt t2 path).map RawNode.symbolOf ∧
            (nodeAt t1 path).map RawNode.startByteOf =
              (nodeAt t2 path).map RawNode.startByteOf ∧
            (nodeAt t1 path).map RawNode.endByteOf =
              (nodeAt t2 path).map RawNode.endByteOf ∧
            (nodeAt t1 path).map RawNode.startPointOf =
              (nodeAt t2 path).map RawNode.startPointOf ∧
            (nodeAt t1 path).map RawNode.endPointOf =
              (nodeAt t2 path).map RawNode.endPointOf := by
  refine ⟨parse l s, parse l s, ?_, ?_, ?_⟩
  · unfold caml_ts_parser_parse_string ts_parser_parse_string
    rw [hp]
  · unfold caml_ts_parser_parse_string ts_parser_parse_string
    rw [hp]
  · intro path
    exact ⟨rfl, rfl, rfl, rfl, rfl⟩

/-- Witness for `C8_reparse_same_shape` at a concrete parser and input. -/
theorem C8_reparse_same_shape_witness :
    ∃ t1 t2 : RawNode,
      caml_ts_parser_parse_string p1 [97] = some (some t1) ∧
        caml_ts_parser_parse_string p1 [97] = some (some t2) ∧
        ∀ path : List Nat,
          (nodeAt t1 path).map RawNode.symbolOf =
              (nodeAt t2 path).map RawNode.symbolOf ∧
            (nodeAt t1 path).map RawNode.startByteOf =
              (nodeAt t2 path).map RawNode.startByteOf ∧
            (nodeAt t1 path).map RawNode.endByteOf =
              (nodeAt t2 path).map RawNode.endByteOf ∧
            (nodeAt t1 path).map RawNode.startPointOf =
              (nodeAt t2 path).map RawNode.startPointOf ∧
            (nodeAt t1 path).map RawNode.endPointOf =
              (nodeAt t2 path).map RawNode.endPointOf :=
  C8_reparse_same_shape p1 jasminLang [97] rfl

/-- Claim C9: for a node whose span satisfies
`start_byte <= end_byte <= len s` (with the `uint32` span below `2^32`),
`caml_ts_node_text` returns exactly the byte slice
`s[start_byte .. end_byte)`; the unchecked out-of-bounds read modelled by the
`none` branch is unreachable under this precondition. -/
theorem C9_node_text (nd : TSNode) (n : RawNode) (s : List Nat)
    (hv : nodeAt nd.tree nd.path = some n)
    (h1 : n.startByteOf ≤ n.endByteOf)
    (h2 : n.endByteOf ≤ s.length)
    (h3 : n.endByteOf < 4294967296) :
    caml_ts_node_text nd s =
      some ((s.drop n.startByteOf).take (n.endByteOf - n.startByteOf)) := by
  unfold caml_ts_node_text ts_node_start_byte ts_node_end_byte
  simp only [hv]
  have hlen : (4294967296 + n.endByteOf - n.startByteOf) % 4294967296 =
      n.endByteOf - n.startByteOf := by omega
  rw [hlen, if_pos (by omega)]

/-- Witness for `C9_node_text` at a concrete in-bounds node and source. -/
theorem C9_node_text_witness :
    caml_ts_node_text ⟨sampleTree, [0]⟩ [97, 98, 99] = some [97] := by
  have h := C9_node_text ⟨sampleTree, [0]⟩
    (RawNode.node 2 true false none 0 1 ⟨0, 0⟩ ⟨0, 1⟩ []) [97, 98, 99]
    rfl (by decide) (by decide) (by decide)
  simpa using h

theorem symString_ne_ERROR (t : String) : ("sym" ++ t) ≠ "ERROR" := by
  intro hcontra
  have hd := congrArg String.data hcontra
  rw [String.data_append] at hd
  have hsym : ("sym" : String).data = ['s', 'y', 'm'] := rfl
  have herr : ("ERROR" : String).data = ['E', 'R', 'R', 'O', 'R'] := rfl
  rw [hsym, herr] at hd
  injection hd with h1 _
  exact absurd h1 (by decide)

theorem symbolName_eq_ERROR_iff (k : Nat) :
    symbolName k = "ERROR" ↔ k = errorSymbol := by
  unfold symbolName
  split
  · next h => simp [h]
  · next h =>
    constructor
    · intro heq
      exact absurd heq (symString_ne_ERROR _)
    · intro heq
      exact absurd heq h

/-- Claim C10: `caml_ts_node_is_error` returns `true` exactly when the
node's type string is `"ERROR"`, equivalently exactly when its symbol is the
reserved error symbol; it is `false` for every node of any other symbol (in
particular for missing nodes, whose symbol is a grammar symbol, not the
error symbol), and its value depends only on the node's symbol — not on the
`has_error` flag. -/
theorem C10_is_error (nd : TSNode) (n : RawNode)
    (hv : nodeAt nd.tree nd.path = some n) :
    (caml_ts_node_is_error nd = true ↔ ts_node_type nd = "ERROR") ∧
      (caml_ts_node_is_error nd = true ↔ n.symbolOf = errorSymbol) ∧
      (n.symbolOf ≠ errorSymbol → caml_ts_node_is_error nd = false) ∧
      (∀ (nd2 : TSNode) (n2 : RawNode), nodeAt nd2.tree nd2.path = some n2 →
        n2.symbolOf = n.symbolOf →
        caml_ts_node_is_error nd2 = caml_ts_node_is_error nd) := by
  have htype : ts_node_type nd = symbolName n.symbolOf := by
    unfold ts_node_type
    rw [hv]
  have h1 : caml_ts_node_is_error nd = true ↔ ts_node_type nd = "ERROR" := by
    unfold caml_ts_node_is_error
    exact beq_iff_eq
  have h2 : caml_ts_node_is_error nd = true ↔ n.symbolOf = errorSymbol := by
    rw [h1, htype, symbolName_eq_ERROR_iff]
  refine ⟨h1, h2, ?_, ?_⟩
  · intro hne
    cases hb : caml_ts_node_is_error nd with
    | false => rfl
    | true => exact absurd (h2.mp hb) hne
  · intro nd2 n2 hv2 hsym
    have htype2 : ts_node_type nd2 = symbolName n2.symbolOf := by
      unfold ts_node_type
      rw [hv2]
    unfold caml_ts_node_is_error
    rw [htype, htype2, hsym]

/-- Witness for `C10_is_error`: the ERROR leaf of `sampleTree` is an error
node, its non-ERROR parent is not (even though `has_error` holds on the
parent). -/
theorem C10_is_error_witness :
    caml_ts_node_is_error ⟨sampleTree, [1]⟩ = true ∧
      caml_ts_node_is_error ⟨sampleTree, []⟩ = false ∧
      caml_ts_node_has_error ⟨sampleTree, []⟩ = true := by
  refine ⟨?_, ?_, ?_⟩
  · exact (C10_is_error ⟨sampleTree, [1]⟩
      (RawNode.node errorSymbol false false none 1 2 ⟨0, 1⟩ ⟨0, 2⟩ []) rfl).2.1.mpr rfl
  · exact (C10_is_error ⟨sampleTree, []⟩ sampleTree rfl).2.2.1 (by decide)
  · simp [caml_ts_node_has_error, ts_node_is_null, ts_node_has_error, nodeAt,
      sampleTree, RawNode.hasErrorB, errorSymbol, RawNode.childrenOf]

theorem nodeAt_append (t : RawNode) (p : List Nat) (i : Nat) :
    nodeAt t (p ++ [i]) = (nodeAt t p).bind (fun m => m.childrenOf.get? i) := by
  induction p generalizing t with
  | nil =>
    show (match t.childrenOf.get? i with
      | some c => nodeAt c []
      | none => none) = t.childrenOf.get? i
    cases t.childrenOf.get? i <;> rfl
  | cons j p ih =>
    show (match t.childrenOf.get? j with
      | some c => nodeAt c (p ++ [i])
      | none => none) =
      (match t.childrenOf.get? j with
        | some c => nodeAt c p
        | none => none).bind (fun m => m.childrenOf.get? i)
    cases t.childrenOf.get? j with
    | none => rfl
    | some c => exact ih c

theorem namedIdxList_length :
    ∀ (cs : List RawNode) (k : Nat),
      (namedIdxList cs k).length = cs.countP (fun c => c.isNamedOf) := by
  intro cs
  induction cs with
  | nil => intro k; rfl
  | cons c cs ih =>
    intro k
    unfold namedIdxList
    by_cases h : c.isNamedOf
    · rw [if_pos h]
      simp [List.countP_cons, h, ih]
    · rw [if_neg h]
      simp only [List.countP_cons]
      simp [h, ih]

theorem namedIdxList_eq_nil :
    ∀ (cs : List RawNode) (k : Nat),
      namedIdxList cs k = [] ↔ ∀ c ∈ cs, c.isNamedOf = false := by
  intro cs
  induction cs with
  | nil => intro k; simp [namedIdxList]
  | cons c cs ih =>
    intro k
    unfold namedIdxList
    by_cases h : c.isNamedOf
    · rw [if_pos h]
      simp [h]
    · rw [if_neg h]
      rw [ih (k + 1)]
      simp [Bool.eq_false_iff.mpr h]

theorem mem_namedIdxList :
    ∀ (cs : List RawNode) (k j : Nat), j ∈ namedIdxList cs k →
      k ≤ j ∧ ∃ c, cs.get? (j - k) = some c ∧ c.isNamedOf = true := by
  intro cs
  induction cs with
  | nil => intro k j h; simp [namedIdxList] at h
  | cons c cs ih =>
    intro k j h
    unfold namedIdxList at h
    by_cases hc : c.isNamedOf
    · rw [if_pos hc] at h
      rcases List.mem_cons.mp h with heq | hmem
      · subst heq
        exact ⟨le_refl _, c, by simp, hc⟩
      · rcases ih (k + 1) j hmem with ⟨hk, d, hd, hdn⟩
        refine ⟨by omega, d, ?_, hdn⟩
        have hsub : j - k = (j - (k + 1)) + 1 := by omega
        rw [hsub]
        simpa using hd
    · rw [if_neg hc] at h
      rcases ih (k + 1) j h with ⟨hk, d, hd, hdn⟩
      refine ⟨by omega, d, ?_, hdn⟩
      have hsub : j - k = (j - (k + 1)) + 1 := by omega
      rw [hsub]
      simpa using hd

theorem fieldIdx_eq_none (f : String) :
    ∀ (cs : List RawNode) (k : Nat),
      fieldIdx f cs k = none ↔ ∀ c ∈ cs, c.fieldNameOf ≠ some f := by
  intro cs
  induction cs with
  | nil => intro k; simp [fieldIdx]
  | cons c cs ih =>
    intro k
    unfold fieldIdx
    by_cases h : c.fieldNameOf = some f
    · rw [if_pos h]
      simp [h]
    · rw [if_neg h]
      rw [ih (k + 1)]
      simp [h]

theorem fieldIdx_some_mem (f : String) :
    ∀ (cs : List RawNode) (k j : Nat), fieldIdx f cs k = some j →
      k ≤ j ∧ ∃ c, cs.get? (j - k) = some c ∧ c.fieldNameOf = some f := by
  intro cs
  induction cs with
  | nil => intro k j h; simp [fieldIdx] at h
  | cons c cs ih =>
    intro k j h
    unfold fieldIdx at h
    by_cases hc : c.fieldNameOf = some f
    · rw [if_pos hc] at h
      cases h
      exact ⟨le_refl _, c, by simp, hc⟩
    · rw [if_neg hc] at h
      rcases ih (k + 1) j h with ⟨hk, d, hd, hdn⟩
      refine ⟨by omega, d, ?_, hdn⟩
      have hsub : j - k = (j - (k + 1)) + 1 := by omega
      rw [hsub]
      simpa using hd

theorem caml_ts_node_child_eq (nd : TSNode) (i : Nat) :
    caml_ts_node_child nd i = ts_node_child nd i := by
  unfold caml_ts_node_child
  cases ts_node_child nd i <;> rfl

theorem caml_ts_node_named_child_eq (nd : TSNode) (i : Nat) :
    caml_ts_node_named_child nd i = ts_node_named_child nd i := by
  unfold caml_ts_node_named_child
  cases ts_node_named_child nd i <;> rfl

theorem caml_ts_node_child_by_field_name_eq (nd : TSNode) (f : String) :
    caml_ts_node_child_by_field_name nd f = ts_node_child_by_field_name nd f := by
  unfold caml_ts_node_child_by_field_name
  cases ts_node_child_by_field_name nd f <;> rfl

theorem caml_ts_node_parent_eq (nd : TSNode) :
    caml_ts_node_parent nd = ts_node_parent nd := by
  unfold caml_ts_node_parent
  cases ts_node_parent nd <;> rfl

theorem caml_ts_node_next_sibling_eq (nd : TSNode) :
    caml_ts_node_next_sibling nd = ts_node_next_sibling nd := by
  unfold caml_ts_node_next_sibling
  cases ts_node_next_sibling nd <;> rfl

theorem caml_ts_node_prev_sibling_eq (nd : TSNode) :
    caml_ts_node_prev_sibling nd = ts_node_prev_sibling nd := by
  unfold caml_ts_node_prev_sibling
  cases ts_node_prev_sibling nd <;> rfl

theorem caml_ts_node_next_named_sibling_eq (nd : TSNode) :
    caml_ts_node_next_named_sibling nd = ts_node_next_named_sibling nd := by
  unfold caml_ts_node_next_named_sibling
  cases ts_node_next_named_sibling nd <;> rfl

theorem caml_ts_node_prev_named_sibling_eq (nd : TSNode) :
    caml_ts_node_prev_named_sibling nd = ts_node_prev_named_sibling nd := by
  unfold caml_ts_node_prev_named_sibling
  cases ts_node_prev_named_sibling nd <;> rfl

theorem caml_ts_node_descendant_eq (nd : TSNode) (s e : TSPoint) :
    caml_ts_node_descendant_for_point_range nd s e =
      ts_node_descendant_for_point_range nd s e := by
  unfold caml_ts_node_descendant_for_point_range
  cases ts_node_descendant_for_point_range nd s e <;> rfl

/-- Claim C5: every node-navigation stub returns an explicit optional value:
`none` exactly when the requested relation does not exist (root's parent;
`child i` with `i >= child_count`; `named_child i` with
`i >= named_child_count`; siblings of the root or past the ends; no child
with the field name; a point range not contained in the node) and, when the
relation exists, `some` of a genuine node of the same tree — never a
sentinel node value. -/
theorem C5_navigation (nd : TSNode) (n : RawNode)
    (hv : nodeAt nd.tree nd.path = some n) :
    (caml_ts_node_parent nd = none ↔ nd.path = []) ∧
      (∀ r, caml_ts_node_parent nd = some r →
        r.tree = nd.tree ∧ (nodeAt r.tree r.path).isSome = true) ∧
      (∀ i, caml_ts_node_child nd i = none ↔ n.childrenOf.length ≤ i) ∧
      (∀ i r, caml_ts_node_child nd i = some r →
        r.tree = nd.tree ∧
          ∃ c, n.childrenOf.get? i = some c ∧ nodeAt r.tree r.path = some c) ∧
      (∀ i, caml_ts_node_named_child nd i = none ↔
        caml_ts_node_named_child_count nd ≤ i) ∧
      (∀ i r, caml_ts_node_named_child nd i = some r →
        r.tree = nd.tree ∧
          ∃ c, nodeAt r.tree r.path = some c ∧ c.isNamedOf = true) ∧
      (∀ f, caml_ts_node_child_by_field_name nd f = none ↔
        ∀ c ∈ n.childrenOf, c.fieldNameOf ≠ some f) ∧
      (∀ f r, caml_ts_node_child_by_field_name nd f = some r →
        r.tree = nd.tree ∧
          ∃ c, nodeAt r.tree r.path = some c ∧ c.fieldNameOf = some f) ∧
      (nd.path = [] →
        caml_ts_node_next_sibling nd = none ∧
          caml_ts_node_prev_sibling nd = none ∧
          caml_ts_node_next_named_sibling nd = none ∧
          caml_ts_node_prev_named_sibling nd = none) ∧
      (∀ q i m, nd.path = q ++ [i] → nodeAt nd.tree q = some m →
        (caml_ts_node_next_sibling nd = none ↔ m.childrenOf.length ≤ i + 1) ∧
          (caml_ts_node_prev_sibling nd = none ↔ i = 0) ∧
          (caml_ts_node_next_named_sibling nd = none ↔
            ∀ c ∈ m.childrenOf.drop (i + 1), c.isNamedOf = false) ∧
          (caml_ts_node_prev_named_sibling nd = none ↔
            ∀ c ∈ m.childrenOf.take i, c.isNamedOf = false)) ∧
      (∀ s e, caml_ts_node_descendant_for_point_range nd s e = none ↔
        containsB n s e = false) := by
  have hempty : nd.path.isEmpty = true ↔ nd.path = [] := List.isEmpty_iff
  refine ⟨?_, ?_, ?_, ?_, ?_, ?_, ?_, ?_, ?_, ?_, ?_⟩
  · -- parent: none exactly at the root
    rw [caml_ts_node_parent_eq]
    unfold ts_node_parent
    by_cases hp : nd.path = []
    · rw [if_pos (hempty.mpr hp)]
      simp [hp]
    · rw [if_neg (fun hcontra => hp (hempty.mp hcontra))]
      simp [hp]
  · -- parent: a some result is a valid node of the same tree
    intro r hr
    rw [caml_ts_node_parent_eq] at hr
    unfold ts_node_parent at hr
    by_cases hp : nd.path = []
    · rw [if_pos (hempty.mpr hp)] at hr
      exact absurd hr (by simp)
    · rw [if_neg (fun hcontra => hp (hempty.mp hcontra))] at hr
      cases hr
      rcases List.eq_nil_or_concat nd.path with h0 | ⟨q, i, hqi⟩
      · exact absurd h0 hp
      · refine ⟨rfl, ?_⟩
        rw [List.concat_eq_append] at hqi
        rw [hqi] at hv
        rw [nodeAt_append] at hv
        show (nodeAt nd.tree nd.path.dropLast).isSome = true
        rw [hqi, List.dropLast_concat]
        cases hq : nodeAt nd.tree q with
        | none => rw [hq] at hv; simp at hv
        | some m => rfl
  · -- child i: none exactly when i is out of range
    intro i
    rw [caml_ts_node_child_eq]
    simp only [ts_node_child, hv]
    split
    · next h => simp; omega
    · next h => simp; omega
  · -- child i: a some result is the i-th child
    intro i r hr
    rw [caml_ts_node_child_eq] at hr
    simp only [ts_node_child, hv] at hr
    by_cases hi : i < n.childrenOf.length
    · rw [if_pos hi] at hr
      cases hr
      refine ⟨rfl, n.childrenOf.get ⟨i, hi⟩, List.get?_eq_get hi, ?_⟩
      rw [nodeAt_append, hv]
      simp only [Option.some_bind]
      exact List.get?_eq_get hi
    · rw [if_neg hi] at hr
      exact absurd hr (by simp)
  · -- named_child i: none exactly when i is at or past the named count
    intro i
    rw [caml_ts_node_named_child_eq]
    simp only [ts_node_named_child, caml_ts_node_named_child_count,
      ts_node_named_child_count, hv]
    cases hg : (namedIdxList n.childrenOf 0).get? i with
    | none =>
      simp only [hg]
      have hlen := List.get?_eq_none.mp hg
      rw [namedIdxList_length] at hlen
      exact iff_of_true (by trivial) hlen
    | some j =>
      simp only [hg]
      refine iff_of_false (fun hcontra => Option.noConfusion hcontra) ?_
      intro hlen
      rw [← namedIdxList_length _ 0] at hlen
      rw [List.get?_len_le hlen] at hg
      exact Option.noConfusion hg
  · -- named_child i: a some result is a named child
    intro i r hr
    rw [caml_ts_node_named_child_eq] at hr
    simp only [ts_node_named_child, hv] at hr
    cases hg : (namedIdxList n.childrenOf 0).get? i with
    | none =>
      simp only [hg] at hr
      exact Option.noConfusion hr
    | some j =>
      simp only [hg] at hr
      cases hr
      have hmem : j ∈ namedIdxList n.childrenOf 0 := List.get?_mem hg
      rcases mem_namedIdxList _ 0 j hmem with ⟨_, c, hc, hcn⟩
      rw [Nat.sub_zero] at hc
      refine ⟨rfl, c, ?_, hcn⟩
      rw [nodeAt_append, hv]
      simpa using hc
  · -- child_by_field_name: none exactly when no child has that field
    intro f
    rw [caml_ts_node_child_by_field_name_eq]
    simp only [ts_node_child_by_field_name, hv]
    cases hg : fieldIdx f n.childrenOf 0 with
    | none =>
      simp only [hg]
      exact iff_of_true (by trivial) ((fieldIdx_eq_none f _ 0).mp hg)
    | some j =>
      simp only [hg]
      refine iff_of_false (fun hcontra => Option.noConfusion hcontra) ?_
      intro hall
      rw [(fieldIdx_eq_none f _ 0).mpr hall] at hg
      exact Option.noConfusion hg
  · -- child_by_field_name: a some result carries the field
    intro f r hr
    rw [caml_ts_node_child_by_field_name_eq] at hr
    simp only [ts_node_child_by_field_name, hv] at hr
    cases hg : fieldIdx f n.childrenOf 0 with
    | none =>
      simp only [hg] at hr
      exact Option.noConfusion hr
    | some j =>
      simp only [hg] at hr
      cases hr
      rcases fieldIdx_some_mem f _ 0 j hg with ⟨_, c, hc, hcf⟩
      rw [Nat.sub_zero] at hc
      refine ⟨rfl, c, ?_, hcf⟩
      rw [nodeAt_append, hv]
      simpa using hc
  · -- the root has no siblings of any flavour
    intro hp
    refine ⟨?_, ?_, ?_, ?_⟩ <;>
      simp [caml_ts_node_next_sibling_eq, ts_node_next_sibling,
        caml_ts_node_prev_sibling_eq, ts_node_prev_sibling,
        caml_ts_node_next_named_sibling_eq, ts_node_next_named_sibling,
        caml_ts_node_prev_named_sibling_eq, ts_node_prev_named_sibling, hp]
  · -- siblings of a non-root node
    intro q i m hq hm
    have hlast : nd.path.getLast? = some i := by
      rw [hq]; exact List.getLast?_concat q
    have hdrop : nd.path.dropLast = q := by
      rw [hq]; exact List.dropLast_concat
    refine ⟨?_, ?_, ?_, ?_⟩
    · rw [caml_ts_node_next_sibling_eq]
      simp only [ts_node_next_sibling, hlast, hdrop, hm]
      split
      · next h => simp; omega
      · next h => simp; omega
    · rw [caml_ts_node_prev_sibling_eq]
      simp only [ts_node_prev_sibling, hlast, hdrop, hm]
      split
      · next h => simp [h]
      · next h => simp [h]
    · rw [caml_ts_node_next_named_sibling_eq]
      simp only [ts_node_next_named_sibling, hlast, hdrop, hm]
      cases hnil : namedIdxList (m.childrenOf.drop (i + 1)) (i + 1) with
      | nil =>
        simp only [hnil]
        exact iff_of_true (by trivial) ((namedIdxList_eq_nil _ _).mp hnil)
      | cons j js =>
        simp only [hnil]
        refine iff_of_false (fun hcontra => Option.noConfusion hcontra) ?_
        intro hall
        rw [(namedIdxList_eq_nil _ _).mpr hall] at hnil
        exact List.noConfusion hnil
    · rw [caml_ts_node_prev_named_sibling_eq]
      simp only [ts_node_prev_named_sibling, hlast, hdrop, hm]
      cases hnil : (namedIdxList (m.childrenOf.take i) 0).getLast? with
      | none =>
        simp only [hnil]
        exact iff_of_true (by trivial)
          ((namedIdxList_eq_nil _ _).mp (List.getLast?_eq_none.mp hnil))
      | some j =>
        simp only [hnil]
        refine iff_of_false (fun hcontra => Option.noConfusion hcontra) ?_
        intro hall
        rw [(namedIdxList_eq_nil _ _).mpr hall] at hnil
        exact Option.noConfusion hnil
  · -- descendant_for_point_range: none exactly when the range is outside
    intro s e
    rw [caml_ts_node_descendant_eq]
    simp only [ts_node_descendant_for_point_range, hv]
    split
    · next h => simp [h]
    · next h =>
      simp only [Bool.not_eq_true] at h
      simp [h]

/-- Witness for `C5_navigation` at concrete nodes of `sampleTree`: the root
has no parent and no siblings; child 0 exists and child 2 does not; the leaf
at index 1 has a previous sibling but no next sibling. -/
theorem C5_navigation_witness :
    caml_ts_node_parent ⟨sampleTree, []⟩ = none ∧
      caml_ts_node_child ⟨sampleTree, []⟩ 2 = none ∧
      caml_ts_node_next_sibling ⟨sampleTree, [1]⟩ = none := by
  refine ⟨?_, ?_, ?_⟩
  · exact (C5_navigation ⟨sampleTree, []⟩ sampleTree rfl).1.mpr rfl
  · exact (C5_navigation ⟨sampleTree, []⟩ sampleTree rfl).2.2.1 2 |>.mpr (by decide)
  · refine ((C5_navigation ⟨sampleTree, [1]⟩
      (RawNode.node errorSymbol false false none 1 2 ⟨0, 1⟩ ⟨0, 2⟩ []) rfl
      ).2.2.2.2.2.2.2.2.2.1 [] 1 sampleTree rfl rfl).1.mpr (by decide)

end TS


